import Mathlib

/-
Verification of the WebSocket connection manager (`websockets.py`) and the
sliding-window rate limiter (`main.py`) of the tools-aar-api repository.

The manager state (class `WebSocketManager`) is embedded as `WSState`: the two
dictionaries `active_connections` and `connection_metadata` become
insertion-ordered association lists (Python dicts iterate in insertion order
and have unique keys; dict update keeps the original position of an existing
key and appends a new key at the end), and the `heartbeat_task` handle becomes
a `Bool` recording whether a task handle is currently set.  Readings of
`time.time()` become an explicit `now : ℝ` argument (all readings within one
operation are identified); the success or failure of a transport operation
(`websocket.accept` / `websocket.send_json`) becomes an explicit boolean
oracle argument, since it is decided by the peer, not by this code.
-/

namespace AAR

/-- JSON-like values carried in message payloads (`Dict[str, Any]`). -/
inductive JVal where
  | str : String → JVal
  | num : ℝ → JVal
  | boolean : Bool → JVal

/-- A Python dict of JSON values, as a list of bindings in which a later
binding overrides an earlier one (the semantics of `{**message, "k": v}`). -/
abbrev JDict := List (String × JVal)

/-- Dict update `d[k] = v` by override: append the binding at the end. -/
def dset (d : JDict) (k : String) (v : JVal) : JDict := d ++ [(k, v)]

/-- Dict lookup honouring override order: the last binding for a key wins. -/
def dget (d : JDict) (k : String) : Option JVal :=
  (d.reverse.find? (fun p => p.1 == k)).map (fun p => p.2)

/-- Lookup in an association list with unique keys (`d[k]` / `d.get(k)`). -/
def getKey {α : Type} (l : List (String × α)) (k : String) : Option α :=
  (l.find? (fun p => p.1 == k)).map (fun p => p.2)

/-- Dict assignment `d[k] = v` for an association list with unique keys:
replace the value in place if the key is present, else append at the end. -/
def setKey {α : Type} (l : List (String × α)) (k : String) (v : α) :
    List (String × α) :=
  if l.any (fun p => p.1 == k) then
    l.map (fun p => if p.1 == k then (k, v) else p)
  else l ++ [(k, v)]

/-- In-place mutation of the entry for `k`, if present
(`if k in d: ... mutate d[k]`). -/
def modifyKey {α : Type} (l : List (String × α)) (k : String) (f : α → α) :
    List (String × α) :=
  l.map (fun p => if p.1 == k then (p.1, f p.2) else p)

/-- Dict deletion `del d[k]` for an association list with unique keys. -/
def eraseKey {α : Type} (l : List (String × α)) (k : String) :
    List (String × α) :=
  l.eraseP (fun p => p.1 == k)

/-- Sacred Geometry constant of `websockets.py`: `PHI = (1 + math.sqrt(5)) / 2`. -/
noncomputable def PHI : ℝ := (1 + Real.sqrt 5) / 2

/-- `self.max_connections = int(100 * PHI)`; `int` truncates towards zero and
the argument is positive, so this is the floor. -/
noncomputable def max_connections : ℕ := ⌊(100 : ℝ) * PHI⌋₊

/-- One entry of `connection_metadata`, as created by `WebSocketManager.connect`. -/
structure ConnMeta where
  connected_at : ℝ
  message_count : ℕ
  last_message_time : ℝ
  sacred_geometry_score : ℝ
  phi_optimized : Bool

/-- The mutable state of a `WebSocketManager`.  The values of
`active_connections` (the WebSocket handles) are not observable except through
the send oracle, so only the keys are kept, in insertion order. -/
structure WSState where
  active_connections : List String
  connection_metadata : List (String × ConnMeta)
  heartbeat_task : Bool

/-- `WebSocketManager.__init__`: empty registries, no heartbeat task. -/
def initState : WSState where
  active_connections := []
  connection_metadata := []
  heartbeat_task := false

/-- Dict insertion for the key list of `active_connections`:
`self.active_connections[client_id] = websocket` keeps the position of an
existing key and appends a new key at the end. -/
def insertId (l : List String) (c : String) : List String :=
  if c ∈ l then l else l ++ [c]

/-- `WebSocketManager.disconnect(client_id)`: if the client is registered,
remove it from `active_connections`, delete its metadata entry if present, and
cancel the heartbeat task when no connections remain; otherwise do nothing. -/
def disconnect (s : WSState) (client_id : String) : WSState :=
  if client_id ∈ s.active_connections then
    let active := s.active_connections.erase client_id
    let md := eraseKey s.connection_metadata client_id
    let hb :=
      if active.length = 0 ∧ s.heartbeat_task = true then false
      else s.heartbeat_task
    ⟨active, md, hb⟩
  else s

/-- The metadata update performed by `send_personal_message` after a
successful `send_json`: bump `message_count`, refresh `last_message_time`, and
recompute `sacred_geometry_score = min(0.618 + message_frequency * 0.1, PHI)`
with `message_frequency = message_count / (time.time() - connected_at + 1)`. -/
noncomputable def updateMetaOnSend (m : ConnMeta) (now : ℝ) : ConnMeta :=
  let mc := m.message_count + 1
  let freq : ℝ := (mc : ℝ) / (now - m.connected_at + 1)
  { m with
    message_count := mc
    last_message_time := now
    sacred_geometry_score := min (0.618 + freq * 0.1) PHI }

/-- `WebSocketManager.send_personal_message(client_id, message)`.  If the
client is not registered, return `False` with no state change.  Otherwise
attempt the transport send (`sendOk` tells whether `send_json` succeeds): on
success update the client's metadata entry, if present, and return `True`; on
failure `disconnect(client_id)` and return `False`. -/
noncomputable def send_personal_message (s : WSState) (client_id : String)
    (now : ℝ) (sendOk : Bool) : WSState × Bool :=
  if client_id ∈ s.active_connections then
    if sendOk then
      ({ s with
         connection_metadata :=
           modifyKey s.connection_metadata client_id
             (fun m => updateMetaOnSend m now) }, true)
    else
      (disconnect s client_id, false)
  else
    (s, false)

/-- `WebSocketManager.connect(websocket, client_id)`.  Reject when the
registry already holds `max_connections` entries (the socket is closed with
policy code 1008, nothing is registered, `False` is returned).  Otherwise
`accept` the socket (`acceptOk`; a failure is caught and `False` returned with
no registration), store the connection and its fresh metadata, start the
heartbeat task if this is the first connection and no task is set, send the
welcome message (`welcomeOk` tells whether that transport send succeeds; its
result is ignored), and return `True`. -/
noncomputable def connect (s : WSState) (client_id : String) (now : ℝ)
    (acceptOk welcomeOk : Bool) : WSState × Bool :=
  if max_connections ≤ s.active_connections.length then
    (s, false)
  else if acceptOk = false then
    (s, false)
  else
    let active := insertId s.active_connections client_id
    let md := setKey s.connection_metadata client_id
      { connected_at := now
        message_count := 0
        last_message_time := now
        sacred_geometry_score := 0.618
        phi_optimized := true }
    let hb :=
      if active.length = 1 ∧ s.heartbeat_task = false then true
      else s.heartbeat_task
    let s1 : WSState := ⟨active, md, hb⟩
    ((send_personal_message s1 client_id now welcomeOk).1, true)

/-- The enriched broadcast payload
`{**message, "type": "broadcast", "phi_constant": PHI,
"server_timestamp": time.time(), "connection_count": len(active)}`. -/
noncomputable def broadcastMsg (message : JDict) (now : ℝ) (count : ℕ) : JDict :=
  dset (dset (dset (dset message "type" (JVal.str "broadcast"))
    "phi_constant" (JVal.num PHI)) "server_timestamp" (JVal.num now))
    "connection_count" (JVal.num count)

/-- The `for client_id, websocket in self.active_connections.items()` loop of
`broadcast`: skip the excluded client, attempt `send_json` to every other
client in order, and collect the successfully reached clients and the clients
whose send raised (`disconnected_clients`), without touching the registry. -/
def broadcastLoop (sendOk : String → Bool) (exclude : Option String) :
    List String → List String × List String
  | [] => ([], [])
  | c :: rest =>
    if some c = exclude then broadcastLoop sendOk exclude rest
    else
      let r := broadcastLoop sendOk exclude rest
      if sendOk c then (c :: r.1, r.2) else (r.1, c :: r.2)

/-- The observable outcome of one `broadcast` call: the final manager state,
the enriched message that was sent (`none` when the registry was empty and the
method returned immediately), the clients reached, and the clients collected
in `disconnected_clients`. -/
structure BroadcastResult where
  state : WSState
  sent : Option JDict
  delivered : List String
  failed : List String

/-- `WebSocketManager.broadcast(message, exclude_client)`.  Return immediately
when there are no connections.  Otherwise build the enriched message once,
attempt delivery to every registered client except `exclude` (collecting
failures without interrupting the pass), and only after the full pass
`disconnect` each failed client in order. -/
noncomputable def broadcast (s : WSState) (message : JDict)
    (exclude : Option String) (sendOk : String → Bool) (now : ℝ) :
    BroadcastResult :=
  if s.active_connections = [] then
    ⟨s, none, [], []⟩
  else
    let msg := broadcastMsg message now s.active_connections.length
    let r := broadcastLoop sendOk exclude s.active_connections
    ⟨r.2.foldl disconnect s, some msg, r.1, r.2⟩

/-- A register or unregister call, with its environment (clock reading and
transport outcomes), for reasoning over arbitrary call sequences. -/
inductive WSOp where
  | conn : String → ℝ → Bool → Bool → WSOp
  | disc : String → WSOp

/-- Apply one register/unregister call to the manager state. -/
noncomputable def stepOp (s : WSState) : WSOp → WSState
  | WSOp.conn c now a w => (connect s c now a w).1
  | WSOp.disc c => disconnect s c

/-- Run a sequence of register/unregister calls from a starting state. -/
noncomputable def runOps (s : WSState) (ops : List WSOp) : WSState :=
  ops.foldl stepOp s

/-- `RATE_LIMIT_REQUESTS = int(100 * PHI)` from `main.py`. -/
noncomputable def RATE_LIMIT_REQUESTS : ℕ := ⌊(100 : ℝ) * PHI⌋₊

/-- `RATE_LIMIT_WINDOW = int(60 * PHI)` from `main.py`. -/
noncomputable def RATE_LIMIT_WINDOW : ℕ := ⌊(60 : ℝ) * PHI⌋₊

/-- `check_rate_limit(client_ip)` from `main.py`, with the two module-level
policy constants (`RATE_LIMIT_WINDOW`, `RATE_LIMIT_REQUESTS`) made explicit
parameters and `time.time()` an explicit `now`.  A missing key is initialised
to `[]`; timestamps `t` with `t ≤ now - window` are pruned and the pruned list
stored back; if at least `limit` timestamps remain the call is denied without
recording, otherwise `now` is appended and the call allowed.  Timestamps are
rationals, as every floating-point clock reading is. -/
def check_rate_limit (window : ℚ) (limit : ℕ)
    (storage : List (String × List ℚ)) (client_ip : String) (now : ℚ) :
    List (String × List ℚ) × Bool :=
  let prev := (getKey storage client_ip).getD []
  let pruned := prev.filter (fun t => now - window < t)
  if limit ≤ pruned.length then
    (setKey storage client_ip pruned, false)
  else
    (setKey storage client_ip (pruned ++ [now]), true)

/-- `check_rate_limit` at the constants configured in `main.py`. -/
noncomputable def check_rate_limit_configured
    (storage : List (String × List ℚ)) (client_ip : String) (now : ℚ) :
    List (String × List ℚ) × Bool :=
  check_rate_limit (RATE_LIMIT_WINDOW : ℚ) RATE_LIMIT_REQUESTS
    storage client_ip now

theorem disconnect_eq_mem (s : WSState) (c : String)
    (hm : c ∈ s.active_connections) :
    disconnect s c =
      ⟨s.active_connections.erase c, eraseKey s.connection_metadata c,
       if (s.active_connections.erase c).length = 0 ∧ s.heartbeat_task = true
         then false else s.heartbeat_task⟩ := by
  unfold disconnect
  rw [if_pos hm]

theorem disconnect_eq_absent (s : WSState) (c : String)
    (hm : c ∉ s.active_connections) : disconnect s c = s := by
  unfold disconnect
  rw [if_neg hm]

theorem send_eq_success (s : WSState) (c : String) (now : ℝ)
    (hm : c ∈ s.active_connections) :
    send_personal_message s c now true =
      ({ s with
         connection_metadata :=
           modifyKey s.connection_metadata c
             (fun m => updateMetaOnSend m now) }, true) := by
  unfold send_personal_message
  rw [if_pos hm, if_pos rfl]

theorem send_eq_fail (s : WSState) (c : String) (now : ℝ)
    (hm : c ∈ s.active_connections) :
    send_personal_message s c now false = (disconnect s c, false) := by
  unfold send_personal_message
  rw [if_pos hm, if_neg (by decide : ¬ ((false : Bool) = true))]

theorem send_eq_absent (s : WSState) (c : String) (now : ℝ) (ok : Bool)
    (hm : c ∉ s.active_connections) :
    send_personal_message s c now ok = (s, false) := by
  unfold send_personal_message
  rw [if_neg hm]

theorem connect_eq_capacity (s : WSState) (c : String) (now : ℝ)
    (a w : Bool) (hcap : max_connections ≤ s.active_connections.length) :
    connect s c now a w = (s, false) := by
  unfold connect
  rw [if_pos hcap]

theorem connect_eq_acceptFail (s : WSState) (c : String) (now : ℝ) (w : Bool)
    (hcap : ¬ max_connections ≤ s.active_connections.length) :
    connect s c now false w = (s, false) := by
  unfold connect
  rw [if_neg hcap, if_pos rfl]

theorem connect_eq_accepted (s : WSState) (c : String) (now : ℝ) (w : Bool)
    (hcap : ¬ max_connections ≤ s.active_connections.length) :
    connect s c now true w =
      ((send_personal_message
        ⟨insertId s.active_connections c,
         setKey s.connection_metadata c ⟨now, 0, now, 0.618, true⟩,
         if (insertId s.active_connections c).length = 1
             ∧ s.heartbeat_task = false
           then true else s.heartbeat_task⟩ c now w).1, true) := by
  unfold connect
  rw [if_neg hcap, if_neg (by decide : ¬ ((true : Bool) = false))]

theorem broadcast_eq_empty (s : WSState) (message : JDict)
    (exclude : Option String) (sendOk : String → Bool) (now : ℝ)
    (h : s.active_connections = []) :
    broadcast s message exclude sendOk now = ⟨s, none, [], []⟩ := by
  unfold broadcast
  rw [if_pos h]

theorem broadcast_eq_nonempty (s : WSState) (message : JDict)
    (exclude : Option String) (sendOk : String → Bool) (now : ℝ)
    (h : s.active_connections ≠ []) :
    broadcast s message exclude sendOk now =
      ⟨(broadcastLoop sendOk exclude s.active_connections).2.foldl disconnect s,
       some (broadcastMsg message now s.active_connections.length),
       (broadcastLoop sendOk exclude s.active_connections).1,
       (broadcastLoop sendOk exclude s.active_connections).2⟩ := by
  unfold broadcast
  rw [if_neg h]

theorem sqrt5_lb : (2.236 : ℝ) ≤ Real.sqrt 5 := by
  have h : (2.236 : ℝ) = Real.sqrt (2.236 ^ 2) := (Real.sqrt_sq (by norm_num)).symm
  rw [h]
  exact Real.sqrt_le_sqrt (by norm_num)

theorem sqrt5_ub : Real.sqrt 5 ≤ 2.2361 := by
  have h : (2.2361 : ℝ) = Real.sqrt (2.2361 ^ 2) := (Real.sqrt_sq (by norm_num)).symm
  rw [h]
  exact Real.sqrt_le_sqrt (by norm_num)

theorem PHI_lb : (1.618 : ℝ) ≤ PHI := by
  have h := sqrt5_lb
  unfold PHI
  linarith

theorem PHI_ub : PHI ≤ 1.61805 := by
  have h := sqrt5_ub
  unfold PHI
  linarith

/-- The configured capacity: `int(100 * PHI) = 161`. -/
theorem max_connections_eq : max_connections = 161 := by
  unfold max_connections
  have h1 := PHI_lb
  have h2 := PHI_ub
  rw [Nat.floor_eq_iff (by linarith)]
  constructor
  · push_cast
    linarith
  · push_cast
    linarith

/-- Claim C9: when the registry is empty, `broadcast` returns immediately: no
enriched message is constructed, nothing is sent and nothing fails, and the
registry, the metadata and the heartbeat task are left untouched. -/
theorem broadcast_empty_noop (s : WSState) (message : JDict)
    (exclude : Option String) (sendOk : String → Bool) (now : ℝ)
    (h : s.active_connections = []) :
    broadcast s message exclude sendOk now = ⟨s, none, [], []⟩ := by
  unfold broadcast
  rw [if_pos h]

theorem broadcast_empty_noop_witness :
    broadcast initState [] none (fun _ => true) 0 =
      ⟨initState, none, [], []⟩ :=
  broadcast_empty_noop initState [] none (fun _ => true) 0 rfl

/-- Claim C8: `disconnect` is idempotent — disconnecting the same id twice in
succession leaves exactly the state of disconnecting it once — and a call for
an id that is not registered is a no-op. -/
theorem disconnect_idempotent (s : WSState) (c : String)
    (h : s.active_connections.Nodup) :
    disconnect (disconnect s c) c = disconnect s c
    ∧ (c ∉ s.active_connections → disconnect s c = s) := by
  have habs : ∀ t : WSState, c ∉ t.active_connections → disconnect t c = t := by
    intro t ht
    unfold disconnect
    rw [if_neg ht]
  constructor
  · by_cases hm : c ∈ s.active_connections
    · apply habs
      simp only [disconnect, if_pos hm]
      intro hc
      exact ((List.Nodup.mem_erase_iff h).mp hc).1 rfl
    · rw [habs s hm]
      exact habs s hm
  · exact habs s

theorem disconnect_idempotent_witness :
    disconnect (disconnect initState "c1") "c1" = disconnect initState "c1"
    ∧ ("c1" ∉ initState.active_connections →
        disconnect initState "c1" = initState) :=
  disconnect_idempotent initState "c1" (by decide)

/-- Claim C7: `send_personal_message` to an unknown id returns a negative
result with no effect on the registry; to a known id whose transport send
fails, it disconnects exactly that id, returns a negative result, and every
other registered connection stays registered. -/
theorem send_error_handling (s : WSState) (c : String) (now : ℝ)
    (sendOk : Bool) :
    (c ∉ s.active_connections →
      send_personal_message s c now sendOk = (s, false))
    ∧ (c ∈ s.active_connections → sendOk = false →
        send_personal_message s c now sendOk = (disconnect s c, false)
        ∧ ∀ d ∈ s.active_connections, d ≠ c →
            d ∈ (send_personal_message s c now sendOk).1.active_connections) := by
  constructor
  · intro hm
    unfold send_personal_message
    rw [if_neg hm]
  · intro hm hok
    subst hok
    have he : send_personal_message s c now false = (disconnect s c, false) := by
      unfold send_personal_message
      rw [if_pos hm]
      simp
    refine ⟨he, ?_⟩
    intro d hd hne
    rw [he]
    simp only [disconnect, if_pos hm]
    exact (List.mem_erase_of_ne hne).mpr hd

theorem send_error_handling_witness :
    (send_personal_message ⟨["a", "b"], [], true⟩ "b" 0 false =
        (disconnect ⟨["a", "b"], [], true⟩ "b", false))
    ∧ "a" ∈ (send_personal_message ⟨["a", "b"], [], true⟩ "b" 0
        false).1.active_connections := by
  have h := (send_error_handling ⟨["a", "b"], [], true⟩ "b" 0 false).2
    (by decide) rfl
  exact ⟨h.1, h.2 "a" (by decide) (by decide)⟩

theorem broadcastLoop_mem_fst (ok : String → Bool) (ex : Option String)
    (c : String) (l : List String) :
    c ∈ (broadcastLoop ok ex l).1 ↔ c ∈ l ∧ some c ≠ ex ∧ ok c = true := by
  induction l with
  | nil => simp [broadcastLoop]
  | cons a rest ih =>
    simp only [broadcastLoop]
    by_cases hex : some a = ex
    · rw [if_pos hex, ih]
      constructor
      · rintro ⟨h1, h2, h3⟩
        exact ⟨List.mem_cons_of_mem a h1, h2, h3⟩
      · rintro ⟨h1, h2, h3⟩
        rcases List.mem_cons.mp h1 with hc | hc
        · subst hc
          exact absurd hex h2
        · exact ⟨hc, h2, h3⟩
    · rw [if_neg hex]
      by_cases hok : ok a = true
      · rw [if_pos hok]
        simp only [List.mem_cons, ih]
        constructor
        · rintro (hc | ⟨h1, h2, h3⟩)
          · subst hc
            exact ⟨Or.inl rfl, hex, hok⟩
          · exact ⟨Or.inr h1, h2, h3⟩
        · rintro ⟨h1 | h1, h2, h3⟩
          · exact Or.inl h1
          · exact Or.inr ⟨h1, h2, h3⟩
      · rw [if_neg hok, ih]
        constructor
        · rintro ⟨h1, h2, h3⟩
          exact ⟨List.mem_cons_of_mem a h1, h2, h3⟩
        · rintro ⟨h1, h2, h3⟩
          rcases List.mem_cons.mp h1 with hc | hc
          · subst hc
            exact absurd h3 hok
          · exact ⟨hc, h2, h3⟩

theorem broadcastLoop_mem_snd (ok : String → Bool) (ex : Option String)
    (c : String) (l : List String) :
    c ∈ (broadcastLoop ok ex l).2 ↔ c ∈ l ∧ some c ≠ ex ∧ ok c = false := by
  induction l with
  | nil => simp [broadcastLoop]
  | cons a rest ih =>
    simp only [broadcastLoop]
    by_cases hex : some a = ex
    · rw [if_pos hex, ih]
      constructor
      · rintro ⟨h1, h2, h3⟩
        exact ⟨List.mem_cons_of_mem a h1, h2, h3⟩
      · rintro ⟨h1, h2, h3⟩
        rcases List.mem_cons.mp h1 with hc | hc
        · subst hc
          exact absurd hex h2
        · exact ⟨hc, h2, h3⟩
    · rw [if_neg hex]
      by_cases hok : ok a = true
      · rw [if_pos hok, ih]
        constructor
        · rintro ⟨h1, h2, h3⟩
          exact ⟨List.mem_cons_of_mem a h1, h2, h3⟩
        · rintro ⟨h1, h2, h3⟩
          rcases List.mem_cons.mp h1 with hc | hc
          · subst hc
            rw [hok] at h3
            exact absurd h3 (by decide)
          · exact ⟨hc, h2, h3⟩
      · rw [if_neg hok]
        simp only [List.mem_cons, ih]
        constructor
        · rintro (hc | ⟨h1, h2, h3⟩)
          · subst hc
            exact ⟨Or.inl rfl, hex, Bool.eq_false_iff.mpr hok⟩
          · exact ⟨Or.inr h1, h2, h3⟩
        · rintro ⟨h1 | h1, h2, h3⟩
          · exact Or.inl h1
          · exact Or.inr ⟨h1, h2, h3⟩

/-- Claim C2: during one broadcast pass, a failed send to one connection
neither skips nor aborts delivery to any other connection — every
non-excluded registered client is reached when its send succeeds, and ends up
in the failure list when its send fails — and the ids that failed are
disconnected only after the full pass, by folding `disconnect` over the
failure list starting from the state the pass iterated over. -/
theorem broadcast_fault_isolation (s : WSState) (message : JDict)
    (exclude : Option String) (sendOk : String → Bool) (now : ℝ) :
    (∀ c ∈ s.active_connections, some c ≠ exclude →
        (sendOk c = true →
          c ∈ (broadcast s message exclude sendOk now).delivered)
        ∧ (sendOk c = false →
          c ∈ (broadcast s message exclude sendOk now).failed))
    ∧ (broadcast s message exclude sendOk now).state =
        (broadcast s message exclude sendOk now).failed.foldl disconnect s := by
  by_cases hempty : s.active_connections = []
  · constructor
    · intro c hc
      rw [hempty] at hc
      exact absurd hc (List.not_mem_nil c)
    · rw [broadcast_eq_empty s message exclude sendOk now hempty]
      rfl
  · unfold broadcast
    rw [if_neg hempty]
    constructor
    · intro c hc hex
      constructor
      · intro hok
        exact (broadcastLoop_mem_fst sendOk exclude c
          s.active_connections).mpr ⟨hc, hex, hok⟩
      · intro hok
        exact (broadcastLoop_mem_snd sendOk exclude c
          s.active_connections).mpr ⟨hc, hex, hok⟩
    · rfl

/-- Claim C5: `broadcast(payload, excludeId)` attempts delivery — successfully
or not — to exactly the connections registered at call time other than the
excluded one, and the message sent is the payload enriched with message type
`broadcast`, the current connection count, and the server timestamp. -/
theorem broadcast_delivery_targets (s : WSState) (message : JDict)
    (exclude : Option String) (sendOk : String → Bool) (now : ℝ) :
    (∀ c, (c ∈ (broadcast s message exclude sendOk now).delivered
        ∨ c ∈ (broadcast s message exclude sendOk now).failed)
      ↔ (c ∈ s.active_connections ∧ some c ≠ exclude))
    ∧ (s.active_connections ≠ [] →
        (broadcast s message exclude sendOk now).sent =
          some (broadcastMsg message now s.active_connections.length)
        ∧ dget (broadcastMsg message now s.active_connections.length) "type" =
            some (JVal.str "broadcast")
        ∧ dget (broadcastMsg message now s.active_connections.length)
            "connection_count" =
            some (JVal.num s.active_connections.length)
        ∧ dget (broadcastMsg message now s.active_connections.length)
            "server_timestamp" = some (JVal.num now)) := by
  constructor
  · intro c
    by_cases hempty : s.active_connections = []
    · rw [broadcast_eq_empty s message exclude sendOk now hempty, hempty]
      simp
    · unfold broadcast
      rw [if_neg hempty]
      simp only []
      rw [broadcastLoop_mem_fst sendOk exclude c s.active_connections,
        broadcastLoop_mem_snd sendOk exclude c s.active_connections]
      constructor
      · rintro (⟨h1, h2, _⟩ | ⟨h1, h2, _⟩) <;> exact ⟨h1, h2⟩
      · rintro ⟨h1, h2⟩
        rcases Bool.eq_false_or_eq_true (sendOk c) with h3 | h3
        · exact Or.inl ⟨h1, h2, h3⟩
        · exact Or.inr ⟨h1, h2, h3⟩
  · intro hempty
    refine ⟨?_, ?_, ?_, ?_⟩
    · unfold broadcast
      rw [if_neg hempty]
    · simp [broadcastMsg, dset, dget]
    · simp [broadcastMsg, dset, dget]
    · simp [broadcastMsg, dset, dget]

theorem broadcast_fault_isolation_witness :
    "a" ∈ (broadcast ⟨["a", "b", "x"], [], true⟩ [] (some "x")
        (fun c => c == "a") 0).delivered
    ∧ "b" ∈ (broadcast ⟨["a", "b", "x"], [], true⟩ [] (some "x")
        (fun c => c == "a") 0).failed := by
  have h := (broadcast_fault_isolation ⟨["a", "b", "x"], [], true⟩ []
    (some "x") (fun c => c == "a") 0).1
  exact ⟨(h "a" (by decide) (by decide)).1 (by decide),
    (h "b" (by decide) (by decide)).2 (by decide)⟩

theorem broadcast_delivery_targets_witness :
    ("a" ∈ (broadcast ⟨["a", "b"], [], true⟩ [] (some "b")
        (fun _ => true) 0).delivered
      ∨ "a" ∈ (broadcast ⟨["a", "b"], [], true⟩ [] (some "b")
        (fun _ => true) 0).failed)
    ∧ (broadcast ⟨["a", "b"], [], true⟩ [] (some "b")
        (fun _ => true) 0).sent = some (broadcastMsg [] 0 2) := by
  have h := broadcast_delivery_targets ⟨["a", "b"], [], true⟩ [] (some "b")
    (fun _ => true) 0
  exact ⟨(h.1 "a").mpr ⟨by decide, by decide⟩, (h.2 (by decide)).1⟩

theorem insertId_length_le (l : List String) (c : String) :
    (insertId l c).length ≤ l.length + 1 := by
  unfold insertId
  by_cases hm : c ∈ l
  · rw [if_pos hm]
    exact Nat.le_succ l.length
  · rw [if_neg hm]
    simp

theorem disconnect_length_le (s : WSState) (c : String) :
    (disconnect s c).active_connections.length ≤
      s.active_connections.length := by
  by_cases hm : c ∈ s.active_connections
  · rw [disconnect_eq_mem s c hm]
    exact (s.active_connections.erase_sublist c).length_le
  · rw [disconnect_eq_absent s c hm]

theorem send_length_le (s : WSState) (c : String) (now : ℝ) (ok : Bool) :
    (send_personal_message s c now ok).1.active_connections.length ≤
      s.active_connections.length := by
  by_cases hm : c ∈ s.active_connections
  · cases ok
    · rw [send_eq_fail s c now hm]
      exact disconnect_length_le s c
    · rw [send_eq_success s c now hm]
  · rw [send_eq_absent s c now ok hm]

theorem connect_length_le (s : WSState) (c : String) (now : ℝ) (a w : Bool)
    (h : s.active_connections.length ≤ max_connections) :
    (connect s c now a w).1.active_connections.length ≤ max_connections := by
  by_cases hcap : max_connections ≤ s.active_connections.length
  · rw [connect_eq_capacity s c now a w hcap]
    exact h
  · cases a
    · rw [connect_eq_acceptFail s c now w hcap]
      exact h
    · rw [connect_eq_accepted s c now w hcap]
      refine le_trans (send_length_le _ c now w) ?_
      refine le_trans (insertId_length_le s.active_connections c) ?_
      omega

theorem runOps_length_le (ops : List WSOp) (s : WSState)
    (h : s.active_connections.length ≤ max_connections) :
    (runOps s ops).active_connections.length ≤ max_connections := by
  induction ops generalizing s with
  | nil => exact h
  | cons op rest ih =>
    cases op with
    | conn c now a w => exact ih _ (connect_length_le s c now a w h)
    | disc c => exact ih _ (le_trans (disconnect_length_le s c) h)

/-- Claim C1: under every sequence of register/unregister calls starting from
the initial state, the registry size never exceeds the configured capacity
`max_connections`, and a `connect` call issued when the size is already at or
above the capacity is rejected: it returns `False` and registers nothing. -/
theorem connect_capacity (ops : List WSOp) (s : WSState) (c : String)
    (now : ℝ) (acceptOk welcomeOk : Bool)
    (h : max_connections ≤ s.active_connections.length) :
    (runOps initState ops).active_connections.length ≤ max_connections
    ∧ connect s c now acceptOk welcomeOk = (s, false) := by
  constructor
  · exact runOps_length_le ops initState (by simp [initState])
  · exact connect_eq_capacity s c now acceptOk welcomeOk h

theorem connect_capacity_witness :
    (runOps initState [WSOp.conn "a" 0 true true,
        WSOp.disc "a"]).active_connections.length ≤ max_connections
    ∧ connect ⟨List.replicate 161 "x", [], true⟩ "c1" 0 true true =
        (⟨List.replicate 161 "x", [], true⟩, false) :=
  connect_capacity [WSOp.conn "a" 0 true true, WSOp.disc "a"]
    ⟨List.replicate 161 "x", [], true⟩ "c1" 0 true true
    (by rw [max_connections_eq]; simp)

/-- A heartbeat task handle is set exactly when the registry is non-empty. -/
def HBInv (s : WSState) : Prop :=
  s.heartbeat_task = true ↔ s.active_connections ≠ []

theorem insertId_ne_nil (l : List String) (c : String) : insertId l c ≠ [] := by
  unfold insertId
  by_cases hm : c ∈ l
  · rw [if_pos hm]
    intro he
    rw [he] at hm
    exact List.not_mem_nil c hm
  · rw [if_neg hm]
    simp

theorem HBInv_disconnect (s : WSState) (c : String) (h : HBInv s) :
    HBInv (disconnect s c) := by
  by_cases hm : c ∈ s.active_connections
  · rw [disconnect_eq_mem s c hm]
    unfold HBInv
    by_cases he : s.active_connections.erase c = []
    · cases hhb : s.heartbeat_task <;> simp [he, hhb]
    · have hne : s.active_connections ≠ [] := by
        intro h0
        rw [h0] at hm
        exact List.not_mem_nil c hm
      have hhb : s.heartbeat_task = true := h.mpr hne
      simp [he, hhb, List.length_eq_zero]
  · rw [disconnect_eq_absent s c hm]
    exact h

theorem HBInv_send (s : WSState) (c : String) (now : ℝ) (ok : Bool)
    (h : HBInv s) : HBInv (send_personal_message s c now ok).1 := by
  by_cases hm : c ∈ s.active_connections
  · cases ok
    · rw [send_eq_fail s c now hm]
      exact HBInv_disconnect s c h
    · rw [send_eq_success s c now hm]
      exact h
  · rw [send_eq_absent s c now ok hm]
    exact h

theorem HBInv_connect (s : WSState) (c : String) (now : ℝ) (a w : Bool)
    (h : HBInv s) : HBInv (connect s c now a w).1 := by
  by_cases hcap : max_connections ≤ s.active_connections.length
  · rw [connect_eq_capacity s c now a w hcap]
    exact h
  · cases a
    · rw [connect_eq_acceptFail s c now w hcap]
      exact h
    · rw [connect_eq_accepted s c now w hcap]
      apply HBInv_send
      unfold HBInv
      constructor
      · intro _
        exact insertId_ne_nil s.active_connections c
      · intro _
        by_cases hs : s.active_connections = []
        · have hhb : s.heartbeat_task = false := by
            cases hhbc : s.heartbeat_task
            · rfl
            · exact absurd hs (h.mp hhbc)
          rw [hs]
          simp [insertId, hhb]
        · have hhb : s.heartbeat_task = true := h.mpr hs
          simp [hhb]

/-- Claim C4: the heartbeat task handle is set if and only if the registry is
non-empty; a register taking the registry from empty to non-empty starts the
task, an unregister emptying the registry stops it, and any register or
unregister call that leaves the registry non-empty leaves the task handle
unchanged. -/
theorem heartbeat_running_iff_nonempty (s : WSState) (c : String) (now : ℝ)
    (acceptOk welcomeOk : Bool) (h : HBInv s) :
    HBInv (connect s c now acceptOk welcomeOk).1
    ∧ HBInv (disconnect s c)
    ∧ (s.active_connections = [] → acceptOk = true → welcomeOk = true →
        (connect s c now acceptOk welcomeOk).1.heartbeat_task = true)
    ∧ ((disconnect s c).active_connections = [] →
        (disconnect s c).heartbeat_task = false)
    ∧ ((connect s c now acceptOk welcomeOk).1.active_connections ≠ [] →
        s.active_connections ≠ [] →
        (connect s c now acceptOk welcomeOk).1.heartbeat_task =
          s.heartbeat_task)
    ∧ ((disconnect s c).active_connections ≠ [] →
        (disconnect s c).heartbeat_task = s.heartbeat_task) := by
  have hconn := HBInv_connect s c now acceptOk welcomeOk h
  have hdisc := HBInv_disconnect s c h
  refine ⟨hconn, hdisc, ?_, ?_, ?_, ?_⟩
  · intro hs ha hw
    subst ha
    subst hw
    apply hconn.mpr
    have hcap : ¬ max_connections ≤ s.active_connections.length := by
      rw [hs, max_connections_eq]
      simp
    rw [connect_eq_accepted s c now true hcap]
    have hm : c ∈ (⟨insertId s.active_connections c,
        setKey s.connection_metadata c ⟨now, 0, now, 0.618, true⟩,
        if (insertId s.active_connections c).length = 1
            ∧ s.heartbeat_task = false
          then true else s.heartbeat_task⟩ :
        WSState).active_connections := by
      show c ∈ insertId s.active_connections c
      unfold insertId
      by_cases hcm : c ∈ s.active_connections
      · rw [if_pos hcm]
        exact hcm
      · rw [if_neg hcm]
        simp
    rw [send_eq_success _ c now hm]
    show insertId s.active_connections c ≠ []
    exact insertId_ne_nil s.active_connections c
  · intro hs
    cases hhb : (disconnect s c).heartbeat_task
    · rfl
    · exact absurd hs (hdisc.mp hhb)
  · intro hne1 hne2
    rw [hconn.mpr hne1, h.mpr hne2]
  · intro hne1
    have hne2 : s.active_connections ≠ [] := by
      intro h0
      apply hne1
      rw [disconnect_eq_absent s c (by rw [h0]; exact List.not_mem_nil c)]
      exact h0
    rw [hdisc.mpr hne1, h.mpr hne2]

theorem heartbeat_running_iff_nonempty_witness :
    HBInv (connect initState "c1" 0 true true).1
    ∧ (connect initState "c1" 0 true true).1.heartbeat_task = true
    ∧ (disconnect ⟨["c1"], [("c1", ⟨0, 0, 0, 0.618, true⟩)], true⟩
        "c1").heartbeat_task = false := by
  have h1 := heartbeat_running_iff_nonempty initState "c1" 0 true true
    (by unfold HBInv initState; simp)
  have h2 := heartbeat_running_iff_nonempty
    ⟨["c1"], [("c1", ⟨0, 0, 0, 0.618, true⟩)], true⟩ "c1" 0 true true
    (by unfold HBInv; simp)
  refine ⟨h1.1, h1.2.2.1 rfl rfl rfl, h2.2.2.2.1 ?_⟩
  rw [disconnect_eq_mem _ "c1" (by decide)]
  simp

/-- The ids registered in `active_connections` are exactly the keys of
`connection_metadata`. -/
def KeysMatch (s : WSState) : Prop :=
  ∀ x, x ∈ s.active_connections ↔ x ∈ s.connection_metadata.map Prod.fst

/-- Well-formedness of a manager state as Python dicts guarantee it: unique
keys on both dictionaries, and matching key sets. -/
def WF (s : WSState) : Prop :=
  s.active_connections.Nodup
  ∧ (s.connection_metadata.map Prod.fst).Nodup
  ∧ KeysMatch s

theorem modifyKey_keys {α : Type} (l : List (String × α)) (k : String)
    (f : α → α) : (modifyKey l k f).map Prod.fst = l.map Prod.fst := by
  induction l with
  | nil => rfl
  | cons p rest ih =>
    simp only [modifyKey, List.map_cons] at *
    by_cases hp : p.1 == k
    · rw [if_pos hp, ih]
    · rw [if_neg hp, ih]

theorem eraseKey_keys {α : Type} (l : List (String × α)) (k : String) :
    (eraseKey l k).map Prod.fst = (l.map Prod.fst).erase k := by
  induction l with
  | nil => rfl
  | cons p rest ih =>
    simp only [eraseKey, List.eraseP_cons, List.map_cons, List.erase_cons]
    by_cases hp : p.1 == k
    · have hp2 : (p.1 = k) := by
        exact eq_of_beq hp
      simp [hp, hp2]
    · have hp2 : ¬ (p.1 = k) := by
        intro he
        exact hp (by rw [he]; exact beq_self_eq_true k)
      simp only [eraseKey] at ih
      simp [hp, hp2, ih]

theorem any_key_iff {α : Type} (l : List (String × α)) (k : String) :
    l.any (fun p => p.1 == k) = true ↔ k ∈ l.map Prod.fst := by
  rw [List.any_eq_true]
  constructor
  · rintro ⟨p, hp, he⟩
    rw [List.mem_map]
    exact ⟨p, hp, (eq_of_beq he).symm ▸ rfl⟩
  · intro hk
    rcases List.mem_map.mp hk with ⟨p, hp, he⟩
    exact ⟨p, hp, by rw [he]; exact beq_self_eq_true k⟩

theorem map_fst_setval {α : Type} (l : List (String × α)) (k : String)
    (v : α) :
    (l.map (fun p => if p.1 == k then (k, v) else p)).map Prod.fst =
      l.map Prod.fst := by
  induction l with
  | nil => rfl
  | cons p rest ih =>
    simp only [List.map_cons]
    rw [ih]
    by_cases hp : p.1 == k
    · rw [if_pos hp, (eq_of_beq hp : p.1 = k)]
    · rw [if_neg hp]

theorem setKey_keys_mem {α : Type} (l : List (String × α)) (k : String)
    (v : α) (h : k ∈ l.map Prod.fst) :
    (setKey l k v).map Prod.fst = l.map Prod.fst := by
  unfold setKey
  rw [if_pos ((any_key_iff l k).mpr h)]
  exact map_fst_setval l k v

theorem setKey_keys_absent {α : Type} (l : List (String × α)) (k : String)
    (v : α) (h : k ∉ l.map Prod.fst) :
    (setKey l k v).map Prod.fst = l.map Prod.fst ++ [k] := by
  unfold setKey
  rw [if_neg (fun ha => h ((any_key_iff l k).mp ha))]
  simp

theorem WF_disconnect (s : WSState) (c : String) (h : WF s) :
    WF (disconnect s c) := by
  obtain ⟨h1, h2, h3⟩ := h
  by_cases hm : c ∈ s.active_connections
  · rw [disconnect_eq_mem s c hm]
    refine ⟨h1.erase c, ?_, ?_⟩
    · show ((eraseKey s.connection_metadata c).map Prod.fst).Nodup
      rw [eraseKey_keys]
      exact h2.erase c
    · intro x
      show x ∈ s.active_connections.erase c ↔
        x ∈ (eraseKey s.connection_metadata c).map Prod.fst
      rw [eraseKey_keys, h1.mem_erase_iff, h2.mem_erase_iff, h3 x]
  · rw [disconnect_eq_absent s c hm]
    exact ⟨h1, h2, h3⟩

theorem WF_send (s : WSState) (c : String) (now : ℝ) (ok : Bool)
    (h : WF s) : WF (send_personal_message s c now ok).1 := by
  by_cases hm : c ∈ s.active_connections
  · cases ok
    · rw [send_eq_fail s c now hm]
      exact WF_disconnect s c h
    · rw [send_eq_success s c now hm]
      obtain ⟨h1, h2, h3⟩ := h
      refine ⟨h1, ?_, ?_⟩
      · show ((modifyKey s.connection_metadata c
            (fun m => updateMetaOnSend m now)).map Prod.fst).Nodup
        rw [modifyKey_keys]
        exact h2
      · intro x
        show x ∈ s.active_connections ↔
          x ∈ (modifyKey s.connection_metadata c
            (fun m => updateMetaOnSend m now)).map Prod.fst
        rw [modifyKey_keys]
        exact h3 x
  · rw [send_eq_absent s c now ok hm]
    exact h

theorem WF_connect (s : WSState) (c : String) (now : ℝ) (a w : Bool)
    (h : WF s) : WF (connect s c now a w).1 := by
  by_cases hcap : max_connections ≤ s.active_connections.length
  · rw [connect_eq_capacity s c now a w hcap]
    exact h
  · cases a
    · rw [connect_eq_acceptFail s c now w hcap]
      exact h
    · rw [connect_eq_accepted s c now w hcap]
      apply WF_send
      obtain ⟨h1, h2, h3⟩ := h
      by_cases hm : c ∈ s.active_connections
      · have hk : c ∈ s.connection_metadata.map Prod.fst := (h3 c).mp hm
        refine ⟨?_, ?_, ?_⟩
        · show (insertId s.active_connections c).Nodup
          rw [insertId, if_pos hm]
          exact h1
        · show ((setKey s.connection_metadata c ⟨now, 0, now, 0.618, true⟩).map Prod.fst).Nodup
          rw [setKey_keys_mem _ _ _ hk]
          exact h2
        · intro x
          show x ∈ insertId s.active_connections c ↔
            x ∈ (setKey s.connection_metadata c ⟨now, 0, now, 0.618, true⟩).map Prod.fst
          rw [insertId, if_pos hm, setKey_keys_mem _ _ _ hk]
          exact h3 x
      · have hk : c ∉ s.connection_metadata.map Prod.fst :=
          fun hc => hm ((h3 c).mpr hc)
        refine ⟨?_, ?_, ?_⟩
        · show (insertId s.active_connections c).Nodup
          rw [insertId, if_neg hm]
          rw [List.nodup_append]
          exact ⟨h1, List.nodup_singleton c,
            fun x hx he => hm ((List.mem_singleton.mp he) ▸ hx)⟩
        · show ((setKey s.connection_metadata c ⟨now, 0, now, 0.618, true⟩).map Prod.fst).Nodup
          rw [setKey_keys_absent _ _ _ hk]
          rw [List.nodup_append]
          exact ⟨h2, List.nodup_singleton c,
            fun x hx he => hk ((List.mem_singleton.mp he) ▸ hx)⟩
        · intro x
          show x ∈ insertId s.active_connections c ↔
            x ∈ (setKey s.connection_metadata c ⟨now, 0, now, 0.618, true⟩).map Prod.fst
          rw [insertId, if_neg hm, setKey_keys_absent _ _ _ hk]
          rw [List.mem_append, List.mem_append]
          rw [h3 x]

theorem WF_foldl_disconnect (l : List String) (s : WSState) (h : WF s) :
    WF (l.foldl disconnect s) := by
  induction l generalizing s with
  | nil => exact h
  | cons a rest ih => exact ih _ (WF_disconnect s a h)

theorem WF_broadcast (s : WSState) (message : JDict) (exclude : Option String)
    (sendOk : String → Bool) (now : ℝ) (h : WF s) :
    WF (broadcast s message exclude sendOk now).state := by
  by_cases hempty : s.active_connections = []
  · rw [broadcast_eq_empty s message exclude sendOk now hempty]
    exact h
  · rw [broadcast_eq_nonempty s message exclude sendOk now hempty]
    exact WF_foldl_disconnect _ s h

/-- Claim C10: starting from a well-formed state, after each of the four
operations the set of ids registered in `active_connections` still equals the
set of keys of `connection_metadata`: every registered connection has
metadata, and no metadata entry outlives its connection. -/
theorem metadata_keys_match (s : WSState) (c : String) (now : ℝ)
    (acceptOk welcomeOk sendOk : Bool) (message : JDict)
    (exclude : Option String) (bcastOk : String → Bool) (h : WF s) :
    KeysMatch (connect s c now acceptOk welcomeOk).1
    ∧ KeysMatch (disconnect s c)
    ∧ KeysMatch (send_personal_message s c now sendOk).1
    ∧ KeysMatch (broadcast s message exclude bcastOk now).state :=
  ⟨(WF_connect s c now acceptOk welcomeOk h).2.2,
   (WF_disconnect s c h).2.2,
   (WF_send s c now sendOk h).2.2,
   (WF_broadcast s message exclude bcastOk now h).2.2⟩

theorem metadata_keys_match_witness :
    KeysMatch (connect initState "c1" 0 true true).1
    ∧ KeysMatch (disconnect initState "c1")
    ∧ KeysMatch (send_personal_message initState "c1" 0 true).1
    ∧ KeysMatch (broadcast initState [] none (fun _ => true) 0).state :=
  metadata_keys_match initState "c1" 0 true true true [] none
    (fun _ => true)
    ⟨List.nodup_nil, List.nodup_nil, fun _ => Iff.rfl⟩

theorem getKey_mem {α : Type} {l : List (String × α)} {k : String} {v : α}
    (h : getKey l k = some v) : ∃ p ∈ l, p.2 = v := by
  unfold getKey at h
  cases hf : l.find? (fun p => p.1 == k) with
  | none =>
    rw [hf] at h
    exact absurd h (by simp)
  | some p =>
    rw [hf] at h
    exact ⟨p, List.mem_of_find?_eq_some hf, by
      simpa using h⟩

theorem mem_setKey {α : Type} {storage : List (String × α)} {key : String}
    {v : α} {p : String × α} (h : p ∈ setKey storage key v) :
    p ∈ storage ∨ p = (key, v) := by
  unfold setKey at h
  by_cases ha : storage.any (fun q => q.1 == key)
  · rw [if_pos ha] at h
    rcases List.mem_map.mp h with ⟨q, hq, he⟩
    by_cases hqk : q.1 == key
    · rw [if_pos hqk] at he
      exact Or.inr he.symm
    · rw [if_neg hqk] at he
      exact Or.inl (he ▸ hq)
  · rw [if_neg ha] at h
    rcases List.mem_append.mp h with hq | hq
    · exact Or.inl hq
    · exact Or.inr (List.mem_singleton.mp hq)

/-- Claim C6: `check_rate_limit` first prunes timestamps that have left the
window, denies without recording the request when at least `limit` timestamps
remain, and otherwise records `now` and allows.  Consequently, with limit 3,
four calls for one key within one window yield allow, allow, allow, deny; a
later call made once the whole window has passed is allowed again; and the
stored sequence of any key has length at most the limit right after every
decision. -/
theorem rate_limit_behaviour (window : ℚ) (key : String) (t1 t2 t3 t4 t5 : ℚ)
    (h12 : t1 ≤ t2) (h23 : t2 ≤ t3) (h34 : t3 ≤ t4)
    (hW : t4 - t1 < window) (h5 : t4 + window ≤ t5) :
    check_rate_limit window 3 [] key t1 = ([(key, [t1])], true)
    ∧ check_rate_limit window 3 [(key, [t1])] key t2 =
        ([(key, [t1, t2])], true)
    ∧ check_rate_limit window 3 [(key, [t1, t2])] key t3 =
        ([(key, [t1, t2, t3])], true)
    ∧ check_rate_limit window 3 [(key, [t1, t2, t3])] key t4 =
        ([(key, [t1, t2, t3])], false)
    ∧ check_rate_limit window 3 [(key, [t1, t2, t3])] key t5 =
        ([(key, [t5])], true)
    ∧ (∀ (w : ℚ) (lim : ℕ) (storage : List (String × List ℚ))
        (k : String) (now : ℚ),
        (∀ q ∈ storage, q.2.length ≤ lim) →
        ∀ q ∈ (check_rate_limit w lim storage k now).1,
          q.2.length ≤ lim) := by
  refine ⟨?_, ?_, ?_, ?_, ?_, ?_⟩
  · simp [check_rate_limit, getKey, setKey]
  · have hk1 : t2 - window < t1 := by linarith
    simp [check_rate_limit, getKey, setKey, hk1]
  · have hk1 : t3 - window < t1 := by linarith
    have hk2 : t3 - window < t2 := by linarith
    simp [check_rate_limit, getKey, setKey, hk1, hk2]
  · have hk1 : t4 - window < t1 := by linarith
    have hk2 : t4 - window < t2 := by linarith
    have hk3 : t4 - window < t3 := by linarith
    simp [check_rate_limit, getKey, setKey, hk1, hk2, hk3]
  · have hk1 : ¬ (t5 - window < t1) := by linarith
    have hk2 : ¬ (t5 - window < t2) := by linarith
    have hk3 : ¬ (t5 - window < t3) := by linarith
    simp [check_rate_limit, getKey, setKey, hk1, hk2, hk3]
  · intro w lim storage k now hinv q hq
    have hprev : (((getKey storage k).getD []).filter
        (fun t => decide (now - w < t))).length ≤ lim := by
      refine le_trans (List.length_filter_le _ _) ?_
      cases hg : getKey storage k with
      | none => simp
      | some l0 =>
        rcases getKey_mem hg with ⟨p, hp, he⟩
        simpa [he] using hinv p hp
    unfold check_rate_limit at hq
    by_cases hd : lim ≤ (((getKey storage k).getD []).filter
        (fun t => decide (now - w < t))).length
    · rw [if_pos hd] at hq
      rcases mem_setKey hq with hm | hm
      · exact hinv q hm
      · rw [hm]
        exact hprev
    · rw [if_neg hd] at hq
      rcases mem_setKey hq with hm | hm
      · exact hinv q hm
      · rw [hm]
        simp only [List.length_append, List.length_singleton]
        omega

theorem rate_limit_behaviour_witness :
    check_rate_limit 2 3 [] "k" 0 = ([("k", [0])], true)
    ∧ check_rate_limit 2 3 [("k", [0])] "k" (1/2) =
        ([("k", [0, 1/2])], true)
    ∧ check_rate_limit 2 3 [("k", [0, 1/2])] "k" 1 =
        ([("k", [0, 1/2, 1])], true)
    ∧ check_rate_limit 2 3 [("k", [0, 1/2, 1])] "k" (3/2) =
        ([("k", [0, 1/2, 1])], false)
    ∧ check_rate_limit 2 3 [("k", [0, 1/2, 1])] "k" 4 =
        ([("k", [4])], true) := by
  have h := rate_limit_behaviour 2 "k" 0 (1/2) 1 (3/2) 4
    (by norm_num) (by norm_num) (by norm_num) (by norm_num) (by norm_num)
  exact ⟨h.1, h.2.1, h.2.2.1, h.2.2.2.1, h.2.2.2.2.1⟩

theorem getKey_modifyKey {α : Type} (l : List (String × α)) (k : String)
    (f : α → α) : getKey (modifyKey l k f) k = (getKey l k).map f := by
  induction l with
  | nil => rfl
  | cons p rest ih =>
    unfold getKey modifyKey at ih ⊢
    simp only [List.map_cons]
    by_cases hp : (p.1 == k) = true
    · rw [if_pos hp]
      simp only [List.find?, hp]
      simp
    · have hp2 : (p.1 == k) = false := by simpa using hp
      rw [if_neg hp]
      simp only [List.find?, hp2]
      exact ih

/-- The quality score currently recorded for a client (0 when absent). -/
noncomputable def scoreOf (s : WSState) (c : String) : ℝ :=
  ((getKey s.connection_metadata c).map
    (fun m => m.sacred_geometry_score)).getD 0

/-- Claim C3, amended: on every successful send the quality score is
recomputed as `min(0.618 + frequency * 0.1, PHI)` with
`frequency = messageCount / (now - connectedAt + 1)`; the result never
exceeds the cap `PHI` and never falls below the baseline `0.618`.  It is,
however, not monotone across successive sends (see the counterexample). -/
theorem quality_score_bounds (s : WSState) (c : String) (now : ℝ)
    (m : ConnMeta) (hm : c ∈ s.active_connections)
    (hmd : getKey s.connection_metadata c = some m)
    (hnow : m.connected_at ≤ now) :
    getKey (send_personal_message s c now true).1.connection_metadata c =
      some (updateMetaOnSend m now)
    ∧ (updateMetaOnSend m now).sacred_geometry_score =
        min (0.618 + ((m.message_count + 1 : ℕ) : ℝ) /
          (now - m.connected_at + 1) * 0.1) PHI
    ∧ (updateMetaOnSend m now).sacred_geometry_score ≤ PHI
    ∧ 0.618 ≤ (updateMetaOnSend m now).sacred_geometry_score := by
  have hden : (0 : ℝ) < now - m.connected_at + 1 := by linarith
  have hfreq : (0 : ℝ) ≤ ((m.message_count + 1 : ℕ) : ℝ) /
      (now - m.connected_at + 1) * 0.1 := by
    apply mul_nonneg
    · exact div_nonneg (by positivity) (le_of_lt hden)
    · norm_num
  refine ⟨?_, rfl, min_le_right _ _, ?_⟩
  · rw [send_eq_success s c now hm]
    show getKey (modifyKey s.connection_metadata c
      (fun q => updateMetaOnSend q now)) c = some (updateMetaOnSend m now)
    rw [getKey_modifyKey, hmd]
    rfl
  · apply le_min
    · show (0.618 : ℝ) ≤ 0.618 + ((m.message_count + 1 : ℕ) : ℝ) /
        (now - m.connected_at + 1) * 0.1
      linarith
    · have h := PHI_lb
      linarith

theorem quality_score_bounds_witness :
    getKey (send_personal_message
        ⟨["c"], [("c", ⟨0, 0, 0, 0.618, true⟩)], true⟩
        "c" 1 true).1.connection_metadata "c" =
      some (updateMetaOnSend ⟨0, 0, 0, 0.618, true⟩ 1)
    ∧ (updateMetaOnSend ⟨0, 0, 0, 0.618, true⟩ 1).sacred_geometry_score ≤ PHI
    ∧ 0.618 ≤ (updateMetaOnSend
        ⟨0, 0, 0, 0.618, true⟩ 1).sacred_geometry_score := by
  have h := quality_score_bounds ⟨["c"], [("c", ⟨0, 0, 0, 0.618, true⟩)], true⟩
    "c" 1 ⟨0, 0, 0, 0.618, true⟩ (by decide) rfl (by norm_num)
  exact ⟨h.1, h.2.2.1, h.2.2.2⟩

/-- Claim C3, counterexample to the claim as stated: the quality score is not
non-decreasing across successive successful sends to the same connection.
For a client connected at time 0, a first successful send at time 0 yields
score `min(0.718, PHI) = 0.718`, and a second successful send at time 100
yields score `0.618 + (2 / 101) * 0.1 < 0.718`: the score strictly
decreases. -/
theorem quality_score_not_monotone :
    scoreOf (send_personal_message (send_personal_message
        ⟨["c"], [("c", ⟨0, 0, 0, 0.618, true⟩)], true⟩
        "c" 0 true).1 "c" 100 true).1 "c"
    < scoreOf (send_personal_message
        ⟨["c"], [("c", ⟨0, 0, 0, 0.618, true⟩)], true⟩ "c" 0 true).1 "c" := by
  have hφ := PHI_lb
  have e1 : (send_personal_message
      ⟨["c"], [("c", ⟨0, 0, 0, 0.618, true⟩)], true⟩ "c" 0 true).1 =
      ⟨["c"], [("c", updateMetaOnSend ⟨0, 0, 0, 0.618, true⟩ 0)], true⟩ := by
    rw [send_eq_success _ "c" 0 (by decide)]
    simp [modifyKey]
  rw [e1]
  have e2 : (send_personal_message
      ⟨["c"], [("c", updateMetaOnSend ⟨0, 0, 0, 0.618, true⟩ 0)], true⟩
      "c" 100 true).1 =
      ⟨["c"], [("c", updateMetaOnSend
        (updateMetaOnSend ⟨0, 0, 0, 0.618, true⟩ 0) 100)], true⟩ := by
    rw [send_eq_success _ "c" 100 (by decide)]
    simp [modifyKey]
  rw [e2]
  show scoreOf ⟨["c"], [("c", updateMetaOnSend
      (updateMetaOnSend ⟨0, 0, 0, 0.618, true⟩ 0) 100)], true⟩ "c"
    < scoreOf ⟨["c"], [("c", updateMetaOnSend ⟨0, 0, 0, 0.618, true⟩ 0)],
      true⟩ "c"
  simp only [scoreOf, getKey, List.find?_cons_of_pos, beq_self_eq_true,
    Option.map_some, Option.getD_some]
  show (updateMetaOnSend (updateMetaOnSend
      ⟨0, 0, 0, 0.618, true⟩ 0) 100).sacred_geometry_score
    < (updateMetaOnSend ⟨0, 0, 0, 0.618, true⟩ 0).sacred_geometry_score
  have hr1 : (updateMetaOnSend
      ⟨0, 0, 0, 0.618, true⟩ 0).sacred_geometry_score =
      min (0.718 : ℝ) PHI := by
    unfold updateMetaOnSend
    norm_num
  have hr2 : (updateMetaOnSend (updateMetaOnSend
      ⟨0, 0, 0, 0.618, true⟩ 0) 100).sacred_geometry_score =
      min (0.618 + 2 / 101 * 0.1 : ℝ) PHI := by
    unfold updateMetaOnSend
    norm_num
  rw [hr1, hr2]
  rw [min_eq_left (by linarith : (0.718 : ℝ) ≤ PHI),
    min_eq_left (by linarith : (0.618 + 2 / 101 * 0.1 : ℝ) ≤ PHI)]
  norm_num

end AAR
